import Mathlib

/-!
Verification development for the Steam data ingestion pipeline
(`src/DB_import.py`): a shallow embedding of its parsing helpers,
review/catalog ingestion loops, batched writer, derived-user builder and
orchestrator, together with theorems settling the specification claims.

Machine integers are modelled as `Int`/`Nat`; Python floats are modelled as
`Rat` (only the decimal-literal fragment of `float()` is needed by the code
paths under study).  The MongoDB client is treated as a given primitive:
an unordered bulk write applies every non-failing operation and reports an
error when any individual operation failed (pymongo `ordered=False`
semantics), and `UpdateOne(filter, set, upsert=True)` merges fields into the
matched document or inserts a fresh one.
-/

namespace SteamImport

/-- Python `str.strip()`: drop whitespace from both ends. -/
def pyStrip (s : String) : String :=
  ⟨((s.data.dropWhile Char.isWhitespace).reverse.dropWhile Char.isWhitespace).reverse⟩

/-- Python `str.lower()` (ASCII fragment, which is all the code compares). -/
def pyLower (s : String) : String :=
  ⟨s.data.map Char.toLower⟩

/-- Python `str.endswith(suffix)`: the last `|suffix|` characters equal the
suffix.  Implemented by comparing the reversed prefix. -/
def pyEndsWith (s suffix : String) : Bool :=
  decide (s.data.reverse.take suffix.data.length = suffix.data.reverse)

/-- Python `str.split(sep)` for a single-character separator, on character
lists: `"a__b".split('_') = ["a", "", "b"]` and `"".split('_') = [""]`. -/
def splitChars (c : Char) : List Char → List (List Char)
  | [] => [[]]
  | x :: xs =>
    if x = c then [] :: splitChars c xs
    else
      match splitChars c xs with
      | [] => [[x]]
      | y :: ys => (x :: y) :: ys

/-- Python `str.split(sep)` returning strings. -/
def pySplit (s : String) (c : Char) : List String :=
  (splitChars c s.data).map (fun l => ⟨l⟩)

/-- Digit run to a natural number. -/
def digitsToNat (l : List Char) : Nat :=
  l.foldl (fun a c => a * 10 + (c.toNat - '0'.toNat)) 0

/-- Python `int(str)`: strip whitespace, optional sign, then a nonempty
digit run (underscore digit separators and non-ASCII digits are not used by
any input this program feeds to `int`). `none` models `ValueError`. -/
def pyInt (s : String) : Option Int :=
  let t := (pyStrip s).data
  let (sign, t1) : Int × List Char :=
    match t with
    | '+' :: r => (1, r)
    | '-' :: r => (-1, r)
    | _ => (1, t)
  if t1 ≠ [] ∧ t1.all Char.isDigit then some (sign * (digitsToNat t1 : Int))
  else none

/-- Python `str.isdigit()` (ASCII fragment). -/
def pyIsDigit (s : String) : Bool :=
  !s.data.isEmpty && s.data.all Char.isDigit

/-- Python `float(str)` on the decimal-literal fragment: strip, optional
sign, digits with an optional fractional part (`"5"`, `"5."`, `".5"`,
`"3.25"`).  Exponents, `inf`/`nan` and underscores are outside the fragment
exercised by the program's review data and are not modelled; every string
outside the grammar yields `none`, modelling `ValueError`. -/
def pyFloat (s : String) : Option Rat :=
  let t := (pyStrip s).data
  let (sign, t1) : Int × List Char :=
    match t with
    | '+' :: r => (1, r)
    | '-' :: r => (-1, r)
    | _ => (1, t)
  let (ip, r1) := t1.span Char.isDigit
  match r1 with
  | '.' :: r2 =>
    let (fp, r3) := r2.span Char.isDigit
    if r3 = [] ∧ (ip ≠ [] ∨ fp ≠ []) then
      some ((sign : Rat) * ((digitsToNat ip : Rat) + (digitsToNat fp : Rat) / ((10 : Rat) ^ fp.length)))
    else none
  | [] => if ip ≠ [] then some ((sign : Rat) * (digitsToNat ip : Rat)) else none
  | _ => none

/-- Calendar dates produced by `datetime.strptime`. -/
structure Date where
  year : Nat
  month : Nat
  day : Nat
deriving DecidableEq

/-- Gregorian leap year (as validated by `datetime`). -/
def isLeap (y : Nat) : Bool :=
  y % 4 == 0 && (y % 100 != 0 || y % 400 == 0)

/-- Days in a month (as validated by `datetime`). -/
def daysInMonth (y m : Nat) : Nat :=
  if m = 2 then (if isLeap y then 29 else 28)
  else if m = 4 ∨ m = 6 ∨ m = 9 ∨ m = 11 then 30
  else 31

/-- `datetime(year, month, day)` constructor validity. -/
def validDate (y m d : Nat) : Bool :=
  1 ≤ y && y ≤ 9999 && 1 ≤ m && m ≤ 12 && 1 ≤ d && d ≤ daysInMonth y m

/-- Full month names recognised by `strptime` `%B` (C locale). -/
def monthsFull : List String :=
  ["january", "february", "march", "april", "may", "june", "july",
   "august", "september", "october", "november", "december"]

/-- Abbreviated month names recognised by `strptime` `%b` (C locale). -/
def monthsAbbr : List String :=
  ["jan", "feb", "mar", "apr", "may", "jun", "jul", "aug", "sep", "oct", "nov", "dec"]

/-- Match a leading month name (case-insensitively, as `strptime` does):
take the maximal alphabetic run and look it up in `names`.  Returns the
month number and the rest of the input. -/
def parseMonthName (names : List String) (l : List Char) : Option (Nat × List Char) :=
  let (alpha, rest) := l.span Char.isAlpha
  match names.findIdx? (fun n => n == String.mk (alpha.map Char.toLower)) with
  | some i => some (i + 1, rest)
  | none => none

/-- `\s+` of the `strptime` regex: at least one whitespace character. -/
def dropWs1 (l : List Char) : Option (List Char) :=
  match l with
  | c :: rest => if c.isWhitespace then some (rest.dropWhile Char.isWhitespace) else none
  | [] => none

/-- `datetime.strptime(s, "<month> %d, %Y")` where the month field is drawn
from `names` (`%B` with `monthsFull`, `%b` with `monthsAbbr`): month name,
whitespace, 1-2 digit day, literal comma, whitespace, 4-digit year, end of
input, then `datetime` validity. -/
def parseFmtMonthDY (names : List String) (s : String) : Option Date :=
  match parseMonthName names s.data with
  | none => none
  | some (m, r1) =>
    match dropWs1 r1 with
    | none => none
    | some r2 =>
      let (dds, r3) := r2.span Char.isDigit
      if dds.length = 0 ∨ 2 < dds.length then none
      else
        match r3 with
        | ',' :: r4 =>
          match dropWs1 r4 with
          | none => none
          | some r5 =>
            let (yds, r6) := r5.span Char.isDigit
            if yds.length = 4 ∧ r6 = [] then
              let y := digitsToNat yds
              let d := digitsToNat dds
              if validDate y m d then some ⟨y, m, d⟩ else none
            else none
        | _ => none

/-- `datetime.strptime(s, "%Y-%m-%d")`: 4-digit year, dash, 1-2 digit
month, dash, 1-2 digit day, end of input, then `datetime` validity. -/
def parseFmtISO (s : String) : Option Date :=
  let (yds, r1) := s.data.span Char.isDigit
  if yds.length = 4 then
    match r1 with
    | '-' :: r2 =>
      let (mds, r3) := r2.span Char.isDigit
      if 1 ≤ mds.length ∧ mds.length ≤ 2 then
        match r3 with
        | '-' :: r4 =>
          let (dds, r5) := r4.span Char.isDigit
          if 1 ≤ dds.length ∧ dds.length ≤ 2 ∧ r5 = [] then
            let y := digitsToNat yds
            let m := digitsToNat mds
            let d := digitsToNat dds
            if validDate y m d then some ⟨y, m, d⟩ else none
          else none
        | _ => none
      else none
    | _ => none
  else none

/-- The ordered format list of `parse_date_mdy_long`:
`("%B %d, %Y", "%b %d, %Y", "%Y-%m-%d")`. -/
def dateFormats : List (String → Option Date) :=
  [parseFmtMonthDY monthsFull, parseFmtMonthDY monthsAbbr, parseFmtISO]

/-- The `for fmt in formats: try ... except ValueError: continue` loop:
first succeeding format wins. -/
def firstFormat : List (String → Option Date) → String → Option Date
  | [], _ => none
  | f :: fs, t =>
    match f t with
    | some d => some d
    | none => firstFormat fs t

/-- `parse_date_mdy_long` (DB_import.py lines 201-221): `None`/empty input
yields `None`; otherwise strip and try the three formats in order. -/
def parse_date_mdy_long (s : Option String) : Option Date :=
  match s with
  | none => none
  | some str =>
    if str = "" then none
    else firstFormat dateFormats (pyStrip str)

/-- `coerce_bool_recommend` (DB_import.py lines 223-232): strip + lower,
`"recommended"` ⇒ `True`, `"not recommended"` ⇒ `False`, else `None`. -/
def coerce_bool_recommend (s : Option String) : Option Bool :=
  match s with
  | none => none
  | some str =>
    let t := pyLower (pyStrip str)
    if t = "recommended" then some true
    else if t = "not recommended" then some false
    else none

/-- One CSV row as produced by `csv.DictReader`: a field-name → raw-string
mapping (keys unique, lookup finds the first match). -/
abbrev Row : Type := List (String × String)

/-- Python `row.get(k)`. -/
def rget (row : Row) (k : String) : Option String :=
  (row.find? (fun p => decide (p.1 = k))).map (fun p => p.2)

/-- Python `a or dflt` where `a` is an optional string: `None` and `""` are
falsy. -/
def orFalsyStr (a : Option String) (dflt : String) : String :=
  match a with
  | some s => if s = "" then dflt else s
  | none => dflt

/-- The first truthy value of `a or b` (both optional strings), `none` when
both are falsy. -/
def firstTruthy (a b : Option String) : Option String :=
  match a with
  | some s =>
    if s = "" then
      match b with
      | some t => if t = "" then none else some t
      | none => none
    else some s
  | none =>
    match b with
    | some t => if t = "" then none else some t
    | none => none

/-- A review document as built by `import_reviews` (DB_import.py lines
382-389): the six fields are always present. -/
structure RDoc where
  app_id : Int
  user : String
  playtime : Rat
  review_text : String
  recommend : Bool
  source_file : String
deriving DecidableEq

instance {ε α : Type} [DecidableEq ε] [DecidableEq α] : DecidableEq (Except ε α) := fun a b =>
  match a, b with
  | Except.ok x, Except.ok y =>
    if h : x = y then isTrue (by rw [h]) else isFalse (by intro hc; cases hc; exact h rfl)
  | Except.error x, Except.error y =>
    if h : x = y then isTrue (by rw [h]) else isFalse (by intro hc; cases hc; exact h rfl)
  | Except.ok _, Except.error _ => isFalse (by intro hc; cases hc)
  | Except.error _, Except.ok _ => isFalse (by intro hc; cases hc)

/-- `row.get("recommend") == "Recommended" or row.get("recommended") == "True"`
(DB_import.py line 387): case-sensitive equality against `Option String`. -/
def recommendOf (row : Row) : Bool :=
  (rget row "recommend" == some "Recommended") || (rget row "recommended" == some "True")

/-- `float(row.get("playtime") or row.get("author_playtime_forever") or 0)`
(DB_import.py line 385): both falsy ⇒ `float(0) = 0.0`; otherwise parse the
string, `ValueError` modelled as `Except.error`. -/
def playtimeOf (row : Row) : Except Unit Rat :=
  match firstTruthy (rget row "playtime") (rget row "author_playtime_forever") with
  | none => Except.ok (0 : Rat)
  | some s =>
    match pyFloat s with
    | some q => Except.ok q
    | none => Except.error ()

/-- `(row.get("user") or row.get("author_steamid") or "").strip()`
(DB_import.py line 376). -/
def userOf (row : Row) : String :=
  pyStrip (orFalsyStr (rget row "user") (orFalsyStr (rget row "author_steamid") ""))

/-- `(row.get("review") or row.get("review_text") or "").strip()`
(DB_import.py line 377). -/
def reviewTextOf (row : Row) : String :=
  pyStrip (orFalsyStr (rget row "review") (orFalsyStr (rget row "review_text") ""))

/-- The per-row body of the `import_reviews` reader loop (DB_import.py
lines 375-391): resolve user/review-text through the alias chains, skip the
row (`continue`) when either is empty (`Except.ok none`), otherwise build
the document; an unparsable playtime raises (`Except.error`). -/
def buildReviewDoc (appid : Int) (fname : String) (row : Row) : Except Unit (Option RDoc) :=
  if userOf row = "" || reviewTextOf row = "" then Except.ok none
  else
    match playtimeOf row with
    | Except.error e => Except.error e
    | Except.ok pt =>
      Except.ok (some ⟨appid, userOf row, pt, reviewTextOf row, recommendOf row, fname⟩)

/-- Partition-key extraction of `import_reviews` (DB_import.py lines
364-370): `int(csv_filename.split('/')[-1].split('_')[0])`, any exception
yielding the sentinel `0`. -/
def filePartAppId (name : String) : Int :=
  let pureName := (pySplit name '/').getLastD ""
  match pyInt ((pySplit pureName '_').headD "") with
  | some n => n
  | none => 0

/-- The CSV entry filter of `import_reviews` (DB_import.py line 358):
`[f for f in z.namelist() if f.endswith('.csv')]` (case-sensitive). -/
def csvFilesOf (namelist : List String) : List String :=
  namelist.filter (fun f => pyEndsWith f ".csv")

/-- The entry filter of `_extract_reviews_zip_flat` (DB_import.py lines
594-601): skip directory entries (`ZipInfo.is_dir()` is a name ending in
`'/'`) and keep names whose lower-cased form ends in `".csv"`. -/
def extractFlatKeeps (namelist : List String) : List String :=
  namelist.filter (fun n => !pyEndsWith n "/" && pyEndsWith (pyLower n) ".csv")

/-- One event of a streamed archive entry: a decoded CSV row, or an
exception raised by the remote stream / decoder at that point. -/
inductive SrcEvent where
  | row (r : Row)
  | fail
deriving Inhabited

/-- One archive entry: its name in the ZIP directory and the events its
content stream yields. -/
structure ZEntry where
  name : String
  events : List SrcEvent

/-- Writer state of the `import_reviews` loop: the `reviews` collection
(`none` = dropped/never written), the in-flight `batch`, the
`total_inserted` counter, and whether an exception has unwound to the
function-level `except` handler. -/
structure FlushSt where
  col : Option (List RDoc)
  batch : List RDoc
  total : Nat
  aborted : Bool
deriving DecidableEq

/-- `col.bulk_write(batch, ordered=False)` followed by
`total_inserted += len(batch)`: with unordered semantics the store applies
every operation the acceptance predicate `ok` admits (one failing operation
does not abort its siblings), then pymongo raises `BulkWriteError` when any
operation failed — so the counter is only advanced when the whole batch
succeeded, and a failure sets `aborted`. -/
def flushBatch (ok : RDoc → Bool) (st : FlushSt) : FlushSt :=
  let committed := st.batch.filter ok
  let newCol := some (st.col.getD [] ++ committed)
  if st.batch.any (fun d => !ok d) then
    { col := newCol, batch := [], total := st.total, aborted := true }
  else
    { col := newCol, batch := [], total := st.total + st.batch.length, aborted := st.aborted }

/-- The row loop of `import_reviews` for one entry: build each document,
append it to the batch, flush at 5000 operations.  A raised exception
(stream failure, `float` ValueError, or `BulkWriteError`) sets `aborted`,
after which every remaining event is left unprocessed — modelling the
unwind to the `except` handler at DB_import.py lines 404-405. -/
def runEvents (ok : RDoc → Bool) (appid : Int) (fname : String) :
    List SrcEvent → FlushSt → FlushSt
  | [], st => st
  | e :: rest, st =>
    if st.aborted then st
    else
      match e with
      | SrcEvent.fail => runEvents ok appid fname rest { st with aborted := true }
      | SrcEvent.row r =>
        match buildReviewDoc appid fname r with
        | Except.error _ => runEvents ok appid fname rest { st with aborted := true }
        | Except.ok none => runEvents ok appid fname rest st
        | Except.ok (some d) =>
          let st1 := { st with batch := st.batch ++ [d] }
          let st2 := if 5000 ≤ st1.batch.length then flushBatch ok st1 else st1
          runEvents ok appid fname rest st2

/-- The entry loop of `import_reviews`: each surfaced CSV file is processed
with the partition key extracted from its name; once aborted, nothing else
runs. -/
def runEntries (ok : RDoc → Bool) : List ZEntry → FlushSt → FlushSt
  | [], st => st
  | e :: rest, st =>
    if st.aborted then st
    else runEntries ok rest (runEvents ok (filePartAppId e.name) e.name e.events st)

/-- A BSON value stored in a catalog document. -/
inductive GVal where
  | str (s : String)
  | int (n : Int)
  | dec (q : Rat)
  | float (q : Rat)
  | date (d : Date)
  | bool (b : Bool)
  | null

/-- A catalog document: a field-name → value map (field order abstracted). -/
abbrev GDoc : Type := String → Option GVal

/-- The `_id` of a catalog document:
`int(k) if str(k).isdigit() else k` (DB_import.py line 300). -/
inductive PKey where
  | int (n : Int)
  | str (s : String)
deriving DecidableEq

/-- The catalog collection: documents keyed by `_id` (unique in MongoDB). -/
abbrev GamesCol : Type := List (PKey × GDoc)

/-- MongoDB `$set`: fields of `new` override, other fields of the matched
document are kept. -/
def setMerge (old new : GDoc) : GDoc :=
  fun f =>
    match new f with
    | some v => some v
    | none => old f

/-- The document produced by `UpdateOne({_id: k}, {$set: d}, upsert=True)`
from the matched document (if any): merge on a match, insert `d` fresh. -/
def setMergeO (o : Option GDoc) (d : GDoc) : GDoc :=
  match o with
  | some a => setMerge a d
  | none => d

/-- Does the collection contain key `k`? -/
def gAny (col : GamesCol) (k : PKey) : Bool :=
  col.any (fun p => decide (p.1 = k))

/-- Apply one `UpdateOne({_id: k}, {$set: d}, upsert=True)` to the
collection (the `_id` index is unique, so at most one document matches). -/
def upsertSet (col : GamesCol) (k : PKey) (d : GDoc) : GamesCol :=
  if gAny col k then
    col.map (fun p => if p.1 = k then (p.1, setMerge p.2 d) else p)
  else col ++ [(k, d)]

/-- Document lookup by `_id`. -/
def gLookup (col : GamesCol) (k : PKey) : Option GDoc :=
  (col.find? (fun p => decide (p.1 = k))).map (fun p => p.2)

/-- The `_id` column of the collection. -/
def gKeys (col : GamesCol) : List PKey :=
  col.map (fun p => p.1)

/-- Apply a list of upserts in order.  `import_games_from_s3` issues them
in 1000-operation unordered batches; because every operation targets its
own `_id`, the batched unordered execution is modelled by sequential
application. -/
def ingestOps (col : GamesCol) (ops : List (PKey × GDoc)) : GamesCol :=
  ops.foldl (fun c op => upsertSet c op.1 op.2) col

/-- The `_id` derived from a raw JSON key (DB_import.py line 300). -/
def gameKey (k : String) : PKey :=
  if pyIsDigit k then PKey.int ((pyInt k).getD 0) else PKey.str k

/-- The value stored in the `_id` field. -/
def keyGVal : PKey → GVal
  | PKey.int n => GVal.int n
  | PKey.str s => GVal.str s

/-- Build one upsert from a streamed `(key, value)` pair of the games JSON
object (DB_import.py lines 298-316): add `_id`, convert a `Decimal` price
to float, and parse a string `release_date` when possible. -/
def buildGameOp (k : String) (v : GDoc) : PKey × GDoc :=
  let key := gameKey k
  let d0 : GDoc := fun f => if f = "_id" then some (keyGVal key) else v f
  let d1 : GDoc := fun f =>
    if f = "price" then
      match d0 "price" with
      | some (GVal.dec q) => some (GVal.float q)
      | x => x
    else d0 f
  let d2 : GDoc := fun f =>
    if f = "release_date" then
      match d1 "release_date" with
      | some (GVal.str s) =>
        match parse_date_mdy_long (some s) with
        | some dt => some (GVal.date dt)
        | none => some (GVal.str s)
      | x => x
    else d1 f
  (key, d2)

/-- The whole catalog ingestion pass of `import_games_from_s3` on the games
collection: one upsert per streamed `(key, value)` pair. -/
def importGamesCol (col : GamesCol) (input : List (String × GDoc)) : GamesCol :=
  ingestOps col (input.map (fun e => buildGameOp e.1 e.2))

/-- A document of the reviews collection as seen by the aggregation
pipeline of `build_users_from_reviews`: only `user` and `app_id` are
consulted, and `user` may be missing/null (`$match {user: {$ne: None}}`
excludes exactly those). -/
structure ADoc where
  user : Option String
  app_id : Int
deriving DecidableEq

/-- The reviews documents written by `import_reviews` always carry a user. -/
def RDoc.toA (r : RDoc) : ADoc :=
  ⟨some r.user, r.app_id⟩

/-- One document of the derived `users` collection:
`{_id: username, name: username, owned_app_ids, review_count}` (the map is
keyed by the `_id`, kept separately in the association list). -/
structure UserData where
  name : String
  owned_app_ids : Finset Int
  review_count : Nat
deriving DecidableEq

/-- The `users` collection keyed by `_id` (the username). -/
abbrev UsersCol : Type := List (String × UserData)

/-- The usernames that occur in the reviews (documents with no username
excluded by the `$match` stage), in first-seen order — `$group` emits one
output document per distinct key. -/
def usersOf (docs : List ADoc) : List String :=
  (docs.filterMap (fun d => d.user)).dedup

/-- The `$group`/`$project` output for one username: `owned_app_ids` is the
`$addToSet` of the user's `app_id`s (a set — order abstracted by `Finset`),
`review_count` the `$sum: 1`. -/
def groupData (docs : List ADoc) (u : String) : UserData :=
  let mine := docs.filter (fun d => decide (d.user = some u))
  ⟨u, (mine.map (fun d => d.app_id)).toFinset, mine.length⟩

/-- All grouped documents, keyed by username. -/
def groupUsers (docs : List ADoc) : List (String × UserData) :=
  (usersOf docs).map (fun u => (u, groupData docs u))

/-- `$merge {whenMatched: replace, whenNotMatched: insert}` for one grouped
document: replace the whole document on an `_id` match, insert otherwise. -/
def mergeStep (t : UsersCol) (g : String × UserData) : UsersCol :=
  if t.any (fun p => decide (p.1 = g.1)) then
    t.map (fun p => if p.1 = g.1 then g else p)
  else t ++ [g]

/-- `$merge` of all grouped documents into the target collection. -/
def mergeReplace (t : UsersCol) (gs : List (String × UserData)) : UsersCol :=
  gs.foldl mergeStep t

/-- `build_users_from_reviews` (DB_import.py lines 410-477) as a function
of the review documents and the prior `users` collection. -/
def buildUsersFrom (docs : List ADoc) (target : UsersCol) : UsersCol :=
  mergeReplace target (groupUsers docs)

/-- Lookup a user document by `_id`. -/
def uLookup (t : UsersCol) (u : String) : Option UserData :=
  (t.find? (fun p => decide (p.1 = u))).map (fun p => p.2)

/-- Database state: the three collections; `none` means the collection does
not exist in the namespace (`list_collection_names`). -/
structure DB where
  games : Option GamesCol
  reviews : Option (List RDoc)
  users : Option UsersCol

/-- Result of `import_reviews`: the database, the `total_inserted` counter,
and whether the run ended in the `except` handler. -/
structure IRes where
  db : DB
  total : Nat
  aborted : Bool

/-- `import_reviews` (DB_import.py lines 345-405): drop the collection,
then open the remote ZIP (`src = none` models `smart_open`/`ZipFile`
raising), filter entry names ending in `".csv"`, stream each file through
the row loop, and issue a final flush of the partial batch.  Every
exception is caught by the function-level handler: the function returns
normally with whatever was already flushed. -/
def importReviews (ok : RDoc → Bool) (db : DB) (src : Option (List ZEntry)) : IRes :=
  let base : DB := { db with reviews := none }
  match src with
  | none => ⟨base, 0, true⟩
  | some entries =>
    let files := entries.filter (fun e => pyEndsWith e.name ".csv")
    let st0 : FlushSt := ⟨none, [], 0, false⟩
    let st1 := runEntries ok files st0
    let st2 := if !st1.aborted && !st1.batch.isEmpty then flushBatch ok st1 else st1
    ⟨{ base with reviews := st2.col }, st2.total, st2.aborted⟩

/-- `import_games_from_s3` (DB_import.py lines 281-336) as a database
transformer: ingest every streamed pair into the games collection
(`bulk_write` creates the collection on the first batch; with an empty
input no write is issued and the namespace is untouched). -/
def importGamesS3 (db : DB) (input : List (String × GDoc)) : DB :=
  if input.isEmpty then db
  else { db with games := some (importGamesCol ((db.games).getD []) input) }

/-- `build_users_from_reviews` as a database transformer: run the
aggregation over the reviews collection and `$merge` into `users`. -/
def buildUsersDb (db : DB) : DB :=
  { db with
    users := some (buildUsersFrom (((db.reviews).getD []).map RDoc.toA) ((db.users).getD [])) }

/-- `main` (DB_import.py lines 664-707), S3 deployment path: import games
only when the collection is absent from the namespace, unconditionally run
`import_reviews`, then build `users` only when that collection is absent
(the check re-reads `list_collection_names` after the review import, which
never touches `users`). -/
def mainRun (gin : List (String × GDoc)) (src : Option (List ZEntry))
    (ok : RDoc → Bool) (db : DB) : DB :=
  let db1 := if (db.games).isSome then db else importGamesS3 db gin
  let db2 := (importReviews ok db1 src).db
  if (db2.users).isSome then db2 else buildUsersDb db2

/-- The empty database (no collection exists). -/
def dbEmpty : DB := ⟨none, none, none⟩

/-- The spec phrasing of the partition key source: the part of the entry
name after the last directory separator. -/
def afterLastSlash (s : String) : String :=
  ⟨(s.data.reverse.takeWhile (fun x => !decide (x = '/'))).reverse⟩

/-- The spec phrasing: the substring before the first underscore. -/
def beforeFirstUnderscore (s : String) : String :=
  ⟨s.data.takeWhile (fun x => !decide (x = '_'))⟩

/-- The claim's description of the partition key: ignore any directory
prefix, parse the substring before the first underscore as an integer,
sentinel `0` on failure. -/
def specPartitionKey (name : String) : Int :=
  (pyInt (beforeFirstUnderscore (afterLastSlash name))).getD 0

/-- The recommend field of a successfully built review document. -/
def recommendField (e : Except Unit (Option RDoc)) : Option Bool :=
  match e with
  | Except.ok (some d) => some d.recommend
  | _ => none

/-- A row whose recommend value is neither vocabulary word. -/
def rowRecMaybe : Row := [("user", "u"), ("review", "r"), ("recommend", "Maybe")]

/-- A row with an upper-cased recommend value. -/
def rowRecUpper : Row := [("user", "u"), ("review", "r"), ("recommend", "RECOMMENDED")]

/-- A row with the exact recommend vocabulary value. -/
def rowRecOk : Row := [("user", "u"), ("review", "r"), ("recommend", "Recommended")]

/-- A plain valid row with no playtime column. -/
def rowUser1 : Row := [("user", "u1"), ("review", "t")]

/-- A row whose playtime fails `float()`. -/
def rowPlayBad : Row := [("user", "u"), ("review", "r"), ("playtime", "abc")]

/-- A row producing a document the store rejects (under `okBad`). -/
def rowBadDoc : Row := [("user", "bad"), ("review", "t")]

/-- Acceptance predicate under which every operation succeeds. -/
def okAll : RDoc → Bool := fun _ => true

/-- Acceptance predicate under which the store rejects documents of user
`"bad"` (e.g. a server-side type mismatch on that operation). -/
def okBad : RDoc → Bool := fun d => !(d.user == "bad")

/-- An archive entry whose final batch contains one accepted and one
rejected operation (under `okBad`). -/
def entryC3 : ZEntry := ⟨"a.csv", [SrcEvent.row rowUser1, SrcEvent.row rowBadDoc]⟩

/-- The review documents used in the derived-collection example of the
spec: user `a` reviews items 1 and 2, user `b` reviews item 1. -/
def exDocs : List ADoc := [⟨some "a", 1⟩, ⟨some "a", 2⟩, ⟨some "b", 1⟩]

/-- A raw catalog JSON value with a `Decimal` price. -/
def gRawA : GDoc := fun f =>
  if f = "name" then some (GVal.str "Alpha")
  else if f = "price" then some (GVal.dec 5)
  else none

/-- A raw catalog JSON value with a string release date. -/
def gRawB : GDoc := fun f =>
  if f = "name" then some (GVal.str "Beta")
  else if f = "release_date" then some (GVal.str "October 22, 2024")
  else none

/-- A two-item catalog input with distinct identity keys. -/
def gInput0 : List (String × GDoc) := [("10", gRawA), ("x2", gRawB)]

/-- A games collection holding one document (for orchestrator witnesses). -/
def gamesCol0 : GamesCol := [(PKey.int 1, fun _ => none)]

/-- A users collection holding one document (for orchestrator witnesses). -/
def usersCol0 : UsersCol := [("u", ⟨"u", {1}, 1⟩)]

/-- A database where all three collections already exist. -/
def dbFull : DB := ⟨some gamesCol0, some [⟨1, "u", 0, "r", true, "f.csv"⟩], some usersCol0⟩

/-- Once an exception has unwound (`aborted`), the row loop processes
nothing further. -/
theorem runEvents_aborted (ok : RDoc → Bool) (appid : Int) (fname : String)
    (evs : List SrcEvent) (st : FlushSt) (h : st.aborted = true) :
    runEvents ok appid fname evs st = st := by
  cases evs with
  | nil => rfl
  | cons e rest => simp [runEvents, h]

/-- Once an exception has unwound, the entry loop processes nothing
further. -/
theorem runEntries_aborted (ok : RDoc → Bool) (entries : List ZEntry) (st : FlushSt)
    (h : st.aborted = true) :
    runEntries ok entries st = st := by
  cases entries with
  | nil => rfl
  | cons e rest => simp [runEntries, h]

/-- claim C1 (amended): the helper `coerce_bool_recommend` does coerce
case-insensitively — `"recommended"` ⇒ true, `"not recommended"` ⇒ false,
anything else ⇒ absent — but `import_reviews` does not call it: every
stored review document carries a `recommend` field computed by the
case-sensitive comparison
`row.get("recommend") == "Recommended" or row.get("recommended") == "True"`,
so non-vocabulary values are stored as `false`, never omitted. -/
theorem claim_C1_amended :
    (∀ s : String, pyLower (pyStrip s) = "recommended" →
      coerce_bool_recommend (some s) = some true) ∧
    (∀ s : String, pyLower (pyStrip s) = "not recommended" →
      coerce_bool_recommend (some s) = some false) ∧
    (∀ s : String, pyLower (pyStrip s) ≠ "recommended" →
      pyLower (pyStrip s) ≠ "not recommended" →
      coerce_bool_recommend (some s) = none) ∧
    (∀ (appid : Int) (f : String) (row : Row) (d : RDoc),
      buildReviewDoc appid f row = Except.ok (some d) →
      d.recommend
        = ((rget row "recommend" == some "Recommended")
            || (rget row "recommended" == some "True"))) := by
  refine ⟨?_, ?_, ?_, ?_⟩
  · intro s h
    simp [coerce_bool_recommend, h]
  · intro s h
    simp [coerce_bool_recommend, h]
  · intro s h1 h2
    simp [coerce_bool_recommend, h1, h2]
  · intro appid f row d h
    rw [buildReviewDoc] at h
    split at h
    · simp at h
    · split at h
      · simp at h
      · simp only [Except.ok.injEq, Option.some.injEq] at h
        rw [← h]
        rfl

/-- Witness for claim C1 (amended) at concrete inputs. -/
theorem claim_C1_witness :
    coerce_bool_recommend (some " ReCommended ") = some true ∧
    coerce_bool_recommend (some "NOT Recommended") = some false ∧
    coerce_bool_recommend (some "Maybe") = none ∧
    (⟨0, "u", 0, "r", true, "g.csv"⟩ : RDoc).recommend
      = ((rget rowRecOk "recommend" == some "Recommended")
          || (rget rowRecOk "recommended" == some "True")) :=
  ⟨claim_C1_amended.1 " ReCommended " (by decide),
   claim_C1_amended.2.1 "NOT Recommended" (by decide),
   claim_C1_amended.2.2.1 "Maybe" (by decide) (by decide),
   claim_C1_amended.2.2.2 0 "g.csv" rowRecOk ⟨0, "u", 0, "r", true, "g.csv"⟩ (by decide)⟩

/-- Counterexample to claim C1 as stated: for the stored review document,
`"Maybe"` yields `recommend = false` (present, not omitted), and the
case-variant `"RECOMMENDED"` yields `false` rather than `true` — while the
(unused) helper would coerce `"RECOMMENDED"` to `true`. -/
theorem claim_C1_counterexample :
    recommendField (buildReviewDoc 0 "f.csv" rowRecMaybe) = some false ∧
    recommendField (buildReviewDoc 0 "f.csv" rowRecUpper) = some false ∧
    coerce_bool_recommend (some "RECOMMENDED") = some true := by
  decide

/-- claim C2 (amended): a missing playtime is stored as `0.0` (the field is
present, not absent), and an unparsable playtime raises `ValueError` inside
the row loop; the exception unwinds to the function-level handler, so the
record is not written and no further event of the pass is processed. -/
theorem claim_C2_amended :
    (∀ (appid : Int) (f : String) (row : Row) (d : RDoc),
      rget row "playtime" = none → rget row "author_playtime_forever" = none →
      buildReviewDoc appid f row = Except.ok (some d) → d.playtime = 0) ∧
    (∀ (appid : Int) (f : String) (row : Row) (s : String),
      userOf row ≠ "" → reviewTextOf row ≠ "" →
      firstTruthy (rget row "playtime") (rget row "author_playtime_forever") = some s →
      pyFloat s = none →
      buildReviewDoc appid f row = Except.error ()) ∧
    (∀ (ok : RDoc → Bool) (appid : Int) (f : String) (row : Row)
        (rest : List SrcEvent) (st : FlushSt),
      st.aborted = false → buildReviewDoc appid f row = Except.error () →
      runEvents ok appid f (SrcEvent.row row :: rest) st = { st with aborted := true }) := by
  refine ⟨?_, ?_, ?_⟩
  · intro appid f row d h1 h2 h
    rw [buildReviewDoc] at h
    split at h
    · simp at h
    · rw [playtimeOf, h1, h2] at h
      simp only [firstTruthy] at h
      simp only [Except.ok.injEq, Option.some.injEq] at h
      rw [← h]
  · intro appid f row s hu ht hft hpf
    rw [buildReviewDoc, if_neg (by simp [hu, ht])]
    rw [playtimeOf, hft]
    simp [hpf]
  · intro ok appid f row rest st hst hb
    rw [runEvents, if_neg (by simp [hst]), hb]
    exact runEvents_aborted ok appid f rest _ rfl

/-- Witness for claim C2 (amended) at concrete inputs. -/
theorem claim_C2_witness :
    (⟨0, "u1", 0, "t", false, "a.csv"⟩ : RDoc).playtime = 0 ∧
    buildReviewDoc 0 "a.csv" rowPlayBad = Except.error () ∧
    runEvents okAll 0 "a.csv" [SrcEvent.row rowPlayBad] ⟨none, [], 0, false⟩
      = ⟨none, [], 0, true⟩ :=
  ⟨claim_C2_amended.1 0 "a.csv" rowUser1 ⟨0, "u1", 0, "t", false, "a.csv"⟩
      (by decide) (by decide) (by decide),
   claim_C2_amended.2.1 0 "a.csv" rowPlayBad "abc"
      (by decide) (by decide) (by decide) (by decide),
   claim_C2_amended.2.2 okAll 0 "a.csv" rowPlayBad [] ⟨none, [], 0, false⟩
      rfl (claim_C2_amended.2.1 0 "a.csv" rowPlayBad "abc"
        (by decide) (by decide) (by decide) (by decide))⟩

/-- Counterexample to claim C2 as stated: a row whose playtime fails
`float()` raises instead of omitting the field — the record is not written,
and the following valid record of the same pass is not processed either
(the collection stays in its dropped state and the run ends aborted). -/
theorem claim_C2_counterexample :
    buildReviewDoc 0 "a.csv" rowPlayBad = Except.error () ∧
    (importReviews okAll dbEmpty
        (some [⟨"a.csv", [SrcEvent.row rowPlayBad, SrcEvent.row rowUser1]⟩])).db.reviews
      = none ∧
    (importReviews okAll dbEmpty
        (some [⟨"a.csv", [SrcEvent.row rowPlayBad, SrcEvent.row rowUser1]⟩])).aborted
      = true := by
  decide

/-- claim C3 (amended): batches are written unordered, so every operation
the store accepts commits even when a sibling in the same batch fails; but
an individual failure raises `BulkWriteError`, which the function-level
handler catches — the batch's success count is not added, failures are only
logged, and no further entry of the run is processed. -/
theorem claim_C3_amended :
    (∀ (ok : RDoc → Bool) (st : FlushSt),
      (flushBatch ok st).col = some ((st.col).getD [] ++ st.batch.filter ok)) ∧
    (∀ (ok : RDoc → Bool) (st : FlushSt),
      st.batch.any (fun d => !ok d) = true →
      (flushBatch ok st).aborted = true ∧ (flushBatch ok st).total = st.total) ∧
    (∀ (ok : RDoc → Bool) (entries : List ZEntry) (st : FlushSt),
      st.aborted = true → runEntries ok entries st = st) := by
  refine ⟨?_, ?_, ?_⟩
  · intro ok st
    rw [flushBatch]
    split <;> rfl
  · intro ok st h
    rw [flushBatch]
    simp [h]
  · exact runEntries_aborted

/-- Witness for claim C3 (amended) at concrete inputs. -/
theorem claim_C3_witness :
    (flushBatch okBad ⟨some [], [⟨0, "u1", 0, "t", false, "a.csv"⟩,
        ⟨0, "bad", 0, "t", false, "a.csv"⟩], 0, false⟩).col
      = some ([] ++ [⟨0, "u1", 0, "t", false, "a.csv"⟩,
          ⟨0, "bad", 0, "t", false, "a.csv"⟩].filter okBad) ∧
    (flushBatch okBad ⟨some [], [⟨0, "u1", 0, "t", false, "a.csv"⟩,
        ⟨0, "bad", 0, "t", false, "a.csv"⟩], 0, false⟩).aborted = true ∧
    runEntries okBad [entryC3] ⟨none, [], 0, true⟩ = ⟨none, [], 0, true⟩ :=
  ⟨claim_C3_amended.1 okBad _,
   (claim_C3_amended.2.1 okBad ⟨some [], [⟨0, "u1", 0, "t", false, "a.csv"⟩,
      ⟨0, "bad", 0, "t", false, "a.csv"⟩], 0, false⟩ (by decide)).1,
   claim_C3_amended.2.2 okBad [entryC3] ⟨none, [], 0, true⟩ rfl⟩

/-- Counterexample to claim C3 as stated: in a batch with one failing
operation the accepted sibling does commit, but the failure is not counted
and the run does not continue — `total_inserted` stays `0` and the pass
ends in the exception handler. -/
theorem claim_C3_counterexample :
    (importReviews okBad dbEmpty (some [entryC3])).db.reviews
      = some [⟨0, "u1", 0, "t", false, "a.csv"⟩] ∧
    (importReviews okBad dbEmpty (some [entryC3])).total = 0 ∧
    (importReviews okBad dbEmpty (some [entryC3])).aborted = true := by
  decide

/-- A character list whose first four elements read `"vsc."` cannot start
with `'/'`: a name ending in `".csv"` is not a directory pseudo-entry. -/
theorem rev_take_ne (l : List Char) (h : l.take 4 = ['v', 's', 'c', '.']) :
    l.take 1 ≠ ['/'] := by
  cases l with
  | nil => simp at h
  | cons a t =>
    rw [show (a :: t).take 4 = a :: t.take 3 from rfl] at h
    injection h with ha hb
    subst ha
    intro hc
    rw [show ('v' :: t).take 1 = ['v'] from rfl] at hc
    exact absurd hc (by decide)

/-- claim C9 (amended): `import_reviews` surfaces exactly the entries whose
name ends in `".csv"` compared case-sensitively (so `".CSV"` entries are
not surfaced), while the flat-extraction helper
`_extract_reviews_zip_flat` compares case-insensitively; in both, directory
pseudo-entries (ZIP names ending in `'/'`) are never surfaced. -/
theorem claim_C9_amended :
    (∀ (names : List String) (n : String),
      n ∈ csvFilesOf names ↔ n ∈ names ∧ pyEndsWith n ".csv" = true) ∧
    (∀ n : String, pyEndsWith n ".csv" = true → pyEndsWith n "/" = false) ∧
    (∀ (names : List String) (n : String),
      n ∈ extractFlatKeeps names
        ↔ n ∈ names ∧ pyEndsWith n "/" = false ∧ pyEndsWith (pyLower n) ".csv" = true) := by
  refine ⟨?_, ?_, ?_⟩
  · intro names n
    simp [csvFilesOf, List.mem_filter]
  · intro n h
    rw [pyEndsWith, decide_eq_true_eq] at h
    rw [pyEndsWith]
    exact decide_eq_false (rev_take_ne n.data.reverse h)
  · intro names n
    simp [extractFlatKeeps, List.mem_filter, Bool.and_eq_true, Bool.not_eq_true']

/-- Witness for claim C9 (amended) at concrete inputs. -/
theorem claim_C9_witness :
    ("a.csv" ∈ csvFilesOf ["a.csv", "dir/"] ↔
      "a.csv" ∈ ["a.csv", "dir/"] ∧ pyEndsWith "a.csv" ".csv" = true) ∧
    pyEndsWith "a.csv" "/" = false ∧
    ("B.CSV" ∈ extractFlatKeeps ["B.CSV", "dir/"] ↔
      "B.CSV" ∈ ["B.CSV", "dir/"] ∧ pyEndsWith "B.CSV" "/" = false ∧
        pyEndsWith (pyLower "B.CSV") ".csv" = true) :=
  ⟨claim_C9_amended.1 ["a.csv", "dir/"] "a.csv",
   claim_C9_amended.2.1 "a.csv" (by decide),
   claim_C9_amended.2.2 ["B.CSV", "dir/"] "B.CSV"⟩

/-- Counterexample to claim C9 as stated: the upper-cased entry
`"REVIEWS.CSV"` matches the case-insensitive rule but is not surfaced by
`import_reviews`, whose filter is case-sensitive. -/
theorem claim_C9_counterexample :
    csvFilesOf ["REVIEWS.CSV"] = [] ∧
    pyEndsWith (pyLower "REVIEWS.CSV") ".csv" = true := by
  decide

/-- `split` never returns an empty list of components. -/
theorem splitChars_ne_nil (c : Char) (l : List Char) : splitChars c l ≠ [] := by
  cases l with
  | nil => simp [splitChars]
  | cons x xs =>
    rw [splitChars]
    split
    · simp
    · split <;> simp

/-- The first component of `split` is the run before the first separator. -/
theorem splitChars_head? (c : Char) (l : List Char) :
    (splitChars c l).head? = some (l.takeWhile (fun x => !decide (x = c))) := by
  induction l with
  | nil => rfl
  | cons x xs ih =>
    by_cases hx : x = c
    · simp [splitChars, hx, List.takeWhile_cons]
    · rw [splitChars, if_neg hx]
      cases hs : splitChars c xs with
      | nil => exact absurd hs (splitChars_ne_nil c xs)
      | cons y ys =>
        rw [hs] at ih
        simp only [List.head?_cons, Option.some.injEq] at ih
        simp [List.takeWhile_cons, hx, ← ih]

/-- A list without the separator splits into itself alone. -/
theorem splitChars_of_not_mem (c : Char) (l : List Char) (h : ∀ z ∈ l, z ≠ c) :
    splitChars c l = [l] := by
  induction l with
  | nil => rfl
  | cons x xs ih =>
    rw [splitChars, if_neg (h x (by simp))]
    rw [ih (fun z hz => h z (by simp [hz]))]

/-- Conversely, a single-component split has no separator in the input. -/
theorem splitChars_single_no_sep (c : Char) (l : List Char) (m : List Char)
    (h : splitChars c l = [m]) : ∀ z ∈ l, z ≠ c := by
  induction l generalizing m with
  | nil => simp
  | cons x xs ih =>
    rw [splitChars] at h
    by_cases hx : x = c
    · rw [if_pos hx] at h
      cases hs : splitChars c xs with
      | nil => exact absurd hs (splitChars_ne_nil c xs)
      | cons y ys => rw [hs] at h; simp at h
    · rw [if_neg hx] at h
      cases hs : splitChars c xs with
      | nil => exact absurd hs (splitChars_ne_nil c xs)
      | cons y ys =>
        rw [hs] at h
        simp only [List.cons.injEq] at h
        intro z hz
        rcases List.mem_cons.mp hz with hz | hz
        · rw [hz]; exact hx
        · exact ih y (by rw [hs, h.2]) z hz

/-- `takeWhile` over a list all of whose elements pass is the list. -/
theorem takeWhile_all_self (p : Char → Bool) (l : List Char)
    (h : ∀ a ∈ l, p a = true) : l.takeWhile p = l := by
  induction l with
  | nil => rfl
  | cons x xs ih =>
    rw [List.takeWhile_cons, if_pos (h x (by simp))]
    rw [ih (fun a ha => h a (by simp [ha]))]

/-- `takeWhile` ignores an appended element that fails the predicate. -/
theorem takeWhile_snoc_fail (p : Char → Bool) (x : Char) (l : List Char)
    (h : p x = false) : (l ++ [x]).takeWhile p = l.takeWhile p := by
  induction l with
  | nil => simp [List.takeWhile_cons, h]
  | cons a l ih =>
    rw [List.cons_append, List.takeWhile_cons, List.takeWhile_cons]
    by_cases ha : p a = true
    · rw [if_pos ha, if_pos ha, ih]
    · rw [if_neg ha, if_neg ha]

/-- `takeWhile` stops inside the first part when some element there fails. -/
theorem takeWhile_append_fail (p : Char → Bool) (l₁ l₂ : List Char)
    (h : ∃ a ∈ l₁, p a = false) : (l₁ ++ l₂).takeWhile p = l₁.takeWhile p := by
  induction l₁ with
  | nil => simp at h
  | cons x xs ih =>
    rw [List.cons_append, List.takeWhile_cons, List.takeWhile_cons]
    by_cases hx : p x = true
    · rw [if_pos hx, if_pos hx, ih]
      rcases h with ⟨a, ha, hpa⟩
      rcases List.mem_cons.mp ha with rfl | ha
      · rw [hx] at hpa; cases hpa
      · exact ⟨a, ha, hpa⟩
    · rw [if_neg hx, if_neg hx]

/-- The last component of `split` is the run after the last separator. -/
theorem splitChars_getLast? (c : Char) (l : List Char) :
    (splitChars c l).getLast?
      = some ((l.reverse.takeWhile (fun x => !decide (x = c))).reverse) := by
  induction l with
  | nil => rfl
  | cons x xs ih =>
    by_cases hx : x = c
    · rw [splitChars, if_pos hx]
      cases hs : splitChars c xs with
      | nil => exact absurd hs (splitChars_ne_nil c xs)
      | cons y ys =>
        rw [hs] at ih
        have hl : (([] : List Char) :: y :: ys).getLast? = (y :: ys).getLast? :=
          List.getLast?_cons_cons
        rw [hl, ih]
        rw [List.reverse_cons, takeWhile_snoc_fail _ _ _ (by simp [hx])]
    · rw [splitChars, if_neg hx]
      cases hs : splitChars c xs with
      | nil => exact absurd hs (splitChars_ne_nil c xs)
      | cons y ys =>
        cases ys with
        | nil =>
          have hnos := splitChars_single_no_sep c xs y hs
          have hxs : splitChars c xs = [xs] := splitChars_of_not_mem c xs hnos
          rw [hxs] at hs
          simp only [List.cons.injEq] at hs
          rw [List.getLast?_singleton, List.reverse_cons]
          rw [takeWhile_all_self _ _ ?hall]
          · rw [List.reverse_append, List.reverse_reverse]
            rw [hs.1]
            rfl
          case hall =>
            intro a ha
            rcases List.mem_append.mp ha with ha | ha
            · simp only [Bool.not_eq_true', decide_eq_false_iff_not]
              exact hnos a (List.mem_reverse.mp ha)
            · simp only [List.mem_singleton] at ha
              simp [ha, hx]
        | cons z zs =>
          have hmem : c ∈ xs := by
            by_contra hc
            rw [splitChars_of_not_mem c xs (fun a ha hac => hc (hac ▸ ha))] at hs
            simp at hs
          have h1 : ((x :: y) :: z :: zs).getLast? = (z :: zs).getLast? :=
            List.getLast?_cons_cons
          have h2 : (y :: z :: zs).getLast? = (z :: zs).getLast? :=
            List.getLast?_cons_cons
          rw [h1, ← h2, ← hs, ih]
          rw [List.reverse_cons, takeWhile_append_fail _ _ _
            ⟨c, List.mem_reverse.mpr hmem, by simp⟩]

/-- claim C7: the partition key ignores any directory prefix, parses the
substring before the first underscore, and falls back to the sentinel `0`;
`"1000000_37.csv"` (with or without a folder) yields `1000000`, and
`"reviews.csv"` yields `0`. -/
theorem claim_C7 :
    (∀ name : String, filePartAppId name = specPartitionKey name) ∧
    filePartAppId "1000000_37.csv" = 1000000 ∧
    filePartAppId "Game Reviews/1000000_37.csv" = 1000000 ∧
    filePartAppId "reviews.csv" = 0 := by
  refine ⟨?_, by decide, by decide, by decide⟩
  intro name
  have h1 : (pySplit name '/').getLastD "" = afterLastSlash name := by
    rw [pySplit, List.getLastD_eq_getLast?, List.getLast?_map, splitChars_getLast?]
    rfl
  have h2 : ∀ s : String, (pySplit s '_').headD "" = beforeFirstUnderscore s := by
    intro s
    rw [pySplit, List.headD_eq_head?_getD, List.head?_map, splitChars_head?]
    rfl
  rw [filePartAppId, specPartitionKey, h1, h2]
  cases hpi : pyInt (beforeFirstUnderscore (afterLastSlash name)) <;> simp [hpi]

/-- claim C8: date normalization tries `"%B %d, %Y"`, then `"%b %d, %Y"`,
then `"%Y-%m-%d"` in that order, the first success winning and a string
matching no format normalizing to absent; the three sample spellings agree
on the calendar date and `"22/10/2024"` yields absent. -/
theorem claim_C8 :
    (∀ (s : String) (d : Date), s ≠ "" →
      parseFmtMonthDY monthsFull (pyStrip s) = some d →
      parse_date_mdy_long (some s) = some d) ∧
    (∀ (s : String) (d : Date), s ≠ "" →
      parseFmtMonthDY monthsFull (pyStrip s) = none →
      parseFmtMonthDY monthsAbbr (pyStrip s) = some d →
      parse_date_mdy_long (some s) = some d) ∧
    (∀ s : String, s ≠ "" →
      parseFmtMonthDY monthsFull (pyStrip s) = none →
      parseFmtMonthDY monthsAbbr (pyStrip s) = none →
      parse_date_mdy_long (some s) = parseFmtISO (pyStrip s)) ∧
    parse_date_mdy_long (some "October 22, 2024") = some ⟨2024, 10, 22⟩ ∧
    parse_date_mdy_long (some "Oct 22, 2024") = some ⟨2024, 10, 22⟩ ∧
    parse_date_mdy_long (some "2024-10-22") = some ⟨2024, 10, 22⟩ ∧
    parse_date_mdy_long (some "22/10/2024") = none := by
  refine ⟨?_, ?_, ?_, by decide, by decide, by decide, by decide⟩
  · intro s d hne h
    rw [parse_date_mdy_long, if_neg hne, dateFormats, firstFormat, h]
  · intro s d hne h1 h2
    rw [parse_date_mdy_long, if_neg hne, dateFormats, firstFormat, h1,
      firstFormat, h2]
  · intro s hne h1 h2
    rw [parse_date_mdy_long, if_neg hne, dateFormats, firstFormat, h1,
      firstFormat, h2, firstFormat]
    cases hiso : parseFmtISO (pyStrip s) <;> rfl

/-- Witness for claim C8 at concrete inputs. -/
theorem claim_C8_witness :
    parse_date_mdy_long (some "May 1, 2024") = some ⟨2024, 5, 1⟩ ∧
    parse_date_mdy_long (some "Dec 31, 1999") = some ⟨1999, 12, 31⟩ ∧
    parse_date_mdy_long (some "31/12/1999") = parseFmtISO (pyStrip "31/12/1999") :=
  ⟨claim_C8.1 "May 1, 2024" ⟨2024, 5, 1⟩ (by decide) (by decide),
   claim_C8.2.1 "Dec 31, 1999" ⟨1999, 12, 31⟩ (by decide) (by decide) (by decide),
   claim_C8.2.2.1 "31/12/1999" (by decide) (by decide) (by decide)⟩

/-- `find?` over an append searches the first part first. -/
theorem find?_append_eq {α : Type} (p : α → Bool) (l₁ l₂ : List α) :
    (l₁ ++ l₂).find? p
      = match l₁.find? p with
        | some x => some x
        | none => l₂.find? p := by
  induction l₁ with
  | nil => simp
  | cons a l ih =>
    cases ha : p a with
    | true => simp [List.find?_cons, ha]
    | false => simp [List.find?_cons, ha, ih]

/-- After replacing the matched entry, lookup at the merge key finds the
new document. -/
theorem find?_map_replace (t : UsersCol) (g : String × UserData)
    (h : t.any (fun p => decide (p.1 = g.1)) = true) :
    (t.map (fun p => if p.1 = g.1 then g else p)).find? (fun p => decide (p.1 = g.1))
      = some g := by
  induction t with
  | nil => simp at h
  | cons p ps ih =>
    by_cases hp : p.1 = g.1
    · simp [List.find?_cons, hp]
    · have h2 : ps.any (fun q => decide (q.1 = g.1)) = true := by
        simp only [List.any_cons, hp, decide_eq_true_eq, Bool.false_or] at h
        simpa using h
      simp [List.find?_cons, hp, ih h2]

/-- One `$merge` step writes the grouped document at its key. -/
theorem uLookup_mergeStep_self (t : UsersCol) (g : String × UserData) :
    uLookup (mergeStep t g) g.1 = some g.2 := by
  rw [mergeStep]
  split
  · case isTrue h =>
      rw [uLookup, find?_map_replace t g h]
      rfl
  · case isFalse h =>
      have hn : t.find? (fun p => decide (p.1 = g.1)) = none := by
        rw [List.find?_eq_none]
        intro x hx
        simp only [decide_eq_true_eq]
        intro hc
        exact h (List.any_eq_true.mpr ⟨x, hx, by simp [hc]⟩)
      rw [uLookup, find?_append_eq, hn]
      simp [List.find?_cons]

/-- Replacing the entry at the merge key does not disturb lookups at any
other key. -/
theorem find?_map_other (t : UsersCol) (g : String × UserData) (u : String)
    (hne : u ≠ g.1) :
    (t.map (fun p => if p.1 = g.1 then g else p)).find? (fun p => decide (p.1 = u))
      = t.find? (fun p => decide (p.1 = u)) := by
  induction t with
  | nil => rfl
  | cons p ps ih =>
    by_cases hp : p.1 = g.1
    · have h1 : decide (g.1 = u) = false := decide_eq_false (fun hc => hne hc.symm)
      have h2 : decide (p.1 = u) = false := decide_eq_false (fun hc => hne (hc ▸ hp))
      simp only [List.map_cons, if_pos hp, List.find?_cons, h1, h2]
      exact ih
    · simp only [List.map_cons, if_neg hp, List.find?_cons]
      cases hpu : decide (p.1 = u) with
      | true => rfl
      | false => exact ih

/-- One `$merge` step leaves every other key untouched. -/
theorem uLookup_mergeStep_other (t : UsersCol) (g : String × UserData) (u : String)
    (hne : u ≠ g.1) :
    uLookup (mergeStep t g) u = uLookup t u := by
  rw [mergeStep]
  split
  · rw [uLookup, find?_map_other t g u hne]
    rfl
  · rw [uLookup, find?_append_eq]
    cases hf : t.find? (fun p => decide (p.1 = u)) with
    | some x => simp [uLookup, hf]
    | none =>
      have hgu : decide (g.1 = u) = false := decide_eq_false (fun hc => hne hc.symm)
      simp [uLookup, hf, List.find?_cons, hgu]

/-- Lookup after `$merge` of a key-distinct group list: a grouped key gets
its grouped document, any other key keeps its prior document. -/
theorem uLookup_mergeReplace (gs : List (String × UserData)) (t : UsersCol) (u : String)
    (h : (gs.map (fun g => g.1)).Nodup) :
    uLookup (mergeReplace t gs) u
      = match gs.find? (fun g => decide (g.1 = u)) with
        | some g => some g.2
        | none => uLookup t u := by
  induction gs generalizing t with
  | nil => rfl
  | cons g gs ih =>
    rw [List.map_cons] at h
    have hpair := List.nodup_cons.mp h
    have hstep : mergeReplace t (g :: gs) = mergeReplace (mergeStep t g) gs := rfl
    rw [hstep, ih (mergeStep t g) hpair.2]
    by_cases hu : g.1 = u
    · have hfn : gs.find? (fun g2 => decide (g2.1 = u)) = none := by
        rw [List.find?_eq_none]
        intro x hx
        simp only [decide_eq_true_eq]
        intro hc
        exact hpair.1 (by rw [hu, ← hc]; exact List.mem_map_of_mem _ hx)
      rw [hfn]
      simp only [List.find?_cons, decide_eq_true hu]
      rw [← hu]
      exact uLookup_mergeStep_self t g
    · simp only [List.find?_cons, decide_eq_false hu]
      rw [uLookup_mergeStep_other t g u (fun hc => hu hc.symm)]

/-- The grouped keys are exactly the distinct usernames. -/
theorem groupUsers_keys (docs : List ADoc) :
    (groupUsers docs).map (fun g => g.1) = usersOf docs := by
  rw [groupUsers, List.map_map]
  exact List.map_id' (usersOf docs)

/-- The distinct usernames carry no duplicates. -/
theorem usersOf_nodup (docs : List ADoc) : (usersOf docs).Nodup :=
  List.nodup_dedup _

/-- A username occurs in `usersOf` exactly when some review document
carries it. -/
theorem mem_usersOf_iff (docs : List ADoc) (u : String) :
    u ∈ usersOf docs ↔ ∃ d ∈ docs, d.user = some u := by
  rw [usersOf, List.mem_dedup, List.mem_filterMap]

/-- Lookup in a keyed map of a member of the key list finds its pair. -/
theorem find?_map_pair_mem (docs : List ADoc) (l : List String) (u : String) (h : u ∈ l) :
    (l.map (fun v => (v, groupData docs v))).find? (fun g => decide (g.1 = u))
      = some (u, groupData docs u) := by
  induction l with
  | nil => simp at h
  | cons v vs ih =>
    by_cases hv : v = u
    · subst hv
      simp [List.find?_cons]
    · have hd : (fun g : String × UserData => decide (g.1 = u)) (v, groupData docs v)
        = false := by simp [hv]
      simp only [List.map_cons, List.find?_cons, hd]
      rcases List.mem_cons.mp h with hc | hc
      · exact absurd hc.symm hv
      · exact ih hc

/-- Looking up a grouped username in the group list finds its group. -/
theorem groupUsers_find?_mem (docs : List ADoc) (u : String) (h : u ∈ usersOf docs) :
    (groupUsers docs).find? (fun g => decide (g.1 = u)) = some (u, groupData docs u) := by
  rw [groupUsers]
  exact find?_map_pair_mem docs (usersOf docs) u h

/-- Looking up an absent username in the group list finds nothing. -/
theorem groupUsers_find?_not_mem (docs : List ADoc) (u : String) (h : u ∉ usersOf docs) :
    (groupUsers docs).find? (fun g => decide (g.1 = u)) = none := by
  rw [groupUsers, List.find?_eq_none]
  intro x hx
  simp only [decide_eq_true_eq]
  rcases List.mem_map.mp hx with ⟨v, hv, rfl⟩
  intro hc
  exact h (hc ▸ hv)

/-- After the build, a username with reviews holds its recomputed group. -/
theorem buildUsersFrom_lookup_mem (docs : List ADoc) (t : UsersCol) (u : String)
    (h : u ∈ usersOf docs) :
    uLookup (buildUsersFrom docs t) u = some (groupData docs u) := by
  rw [buildUsersFrom, uLookup_mergeReplace _ _ _ (by rw [groupUsers_keys]; exact usersOf_nodup docs)]
  rw [groupUsers_find?_mem docs u h]

/-- After the build, a username with no reviews keeps its prior document. -/
theorem buildUsersFrom_lookup_not_mem (docs : List ADoc) (t : UsersCol) (u : String)
    (h : u ∉ usersOf docs) :
    uLookup (buildUsersFrom docs t) u = uLookup t u := by
  rw [buildUsersFrom, uLookup_mergeReplace _ _ _ (by rw [groupUsers_keys]; exact usersOf_nodup docs)]
  rw [groupUsers_find?_not_mem docs u h]

/-- Appending one review by another user leaves a user's group unchanged. -/
theorem groupData_append_other (docs : List ADoc) (r : ADoc) (a u : String)
    (hr : r.user = some a) (hne : u ≠ a) :
    groupData (docs ++ [r]) u = groupData docs u := by
  rw [groupData, groupData, List.filter_append]
  have hf : List.filter (fun d => decide (d.user = some u)) [r] = [] := by
    simp only [List.filter_cons, List.filter_nil, hr]
    rw [if_neg (by simp; exact fun hc => hne hc.symm)]
  rw [hf, List.append_nil]

/-- claim C5: for every state of the review collection, the build groups
all review documents by username (documents with no username excluded),
producing per username the set of distinct item identifiers and the review
count, and merges each group keyed by username — replacing the whole
document on a key match, inserting on no match, and leaving usernames with
no reviews untouched; re-running the build after adding one review for user
`a` updates only `a`'s document (to the recomputed group including the new
review) and leaves every other user's document unchanged. -/
theorem claim_C5 (docs : List ADoc) (t : UsersCol) :
    (∀ u : String, u ∈ usersOf docs →
      uLookup (buildUsersFrom docs t) u = some (groupData docs u)) ∧
    (∀ u : String, u ∉ usersOf docs →
      uLookup (buildUsersFrom docs t) u = uLookup t u) ∧
    (∀ (r : ADoc) (a u : String), r.user = some a → u ≠ a →
      uLookup (buildUsersFrom (docs ++ [r]) (buildUsersFrom docs t)) u
        = uLookup (buildUsersFrom docs t) u) ∧
    (∀ (r : ADoc) (a : String), r.user = some a →
      uLookup (buildUsersFrom (docs ++ [r]) (buildUsersFrom docs t)) a
        = some (groupData (docs ++ [r]) a)) := by
  refine ⟨buildUsersFrom_lookup_mem docs t, buildUsersFrom_lookup_not_mem docs t, ?_, ?_⟩
  · intro r a u hr hne
    by_cases hu : u ∈ usersOf (docs ++ [r])
    · have hud : u ∈ usersOf docs := by
        rcases (mem_usersOf_iff _ _).mp hu with ⟨d, hd, hdu⟩
        rcases List.mem_append.mp hd with hd | hd
        · exact (mem_usersOf_iff _ _).mpr ⟨d, hd, hdu⟩
        · simp only [List.mem_singleton] at hd
          rw [hd, hr] at hdu
          simp only [Option.some.injEq] at hdu
          exact absurd hdu.symm hne
      rw [buildUsersFrom_lookup_mem _ _ _ hu, buildUsersFrom_lookup_mem _ _ _ hud]
      rw [groupData_append_other docs r a u hr hne]
    · have hud : u ∉ usersOf docs := by
        intro hc
        rcases (mem_usersOf_iff _ _).mp hc with ⟨d, hd, hdu⟩
        exact hu ((mem_usersOf_iff _ _).mpr ⟨d, List.mem_append.mpr (Or.inl hd), hdu⟩)
      rw [buildUsersFrom_lookup_not_mem _ _ _ hu, buildUsersFrom_lookup_not_mem _ _ _ hud]
  · intro r a hr
    have ha : a ∈ usersOf (docs ++ [r]) :=
      (mem_usersOf_iff _ _).mpr ⟨r, List.mem_append.mpr (Or.inr (by simp)), hr⟩
    exact buildUsersFrom_lookup_mem _ _ _ ha

/-- Witness for claim C5: the spec's worked example. -/
theorem claim_C5_witness :
    uLookup (buildUsersFrom exDocs []) "a" = some ⟨"a", {1, 2}, 2⟩ ∧
    uLookup (buildUsersFrom exDocs []) "b" = some ⟨"b", {1}, 1⟩ ∧
    uLookup (buildUsersFrom (exDocs ++ [⟨some "a", 3⟩]) (buildUsersFrom exDocs [])) "b"
      = uLookup (buildUsersFrom exDocs []) "b" ∧
    uLookup (buildUsersFrom (exDocs ++ [⟨some "a", 3⟩]) (buildUsersFrom exDocs [])) "a"
      = some ⟨"a", {1, 2, 3}, 3⟩ := by
  have h := claim_C5 exDocs []
  refine ⟨?_, ?_, ?_, ?_⟩
  · rw [h.1 "a" (by decide)]; decide
  · rw [h.1 "b" (by decide)]; decide
  · exact h.2.2.1 ⟨some "a", 3⟩ "a" "b" rfl (by decide)
  · rw [h.2.2.2 ⟨some "a", 3⟩ "a" rfl]; decide

/-- `$set` is stable: re-applying the same `$set` to its own result is the
identity, whether the first application matched a document or inserted. -/
theorem setMerge_stable (o : Option GDoc) (d : GDoc) :
    setMerge (setMergeO o d) d = setMergeO o d := by
  funext f
  show (match d f with | some v => some v | none => setMergeO o d f) = setMergeO o d f
  cases h : d f with
  | some v =>
    cases o with
    | none =>
      show some v = d f
      rw [h]
    | some a =>
      show some v = (match d f with | some w => some w | none => a f)
      rw [h]
  | none => rfl

/-- Mapping a key-preserving function leaves the `_id` column unchanged. -/
theorem gKeys_map_fst (col : GamesCol) (f : PKey × GDoc → PKey × GDoc)
    (h : ∀ p, (f p).1 = p.1) : gKeys (col.map f) = gKeys col := by
  rw [gKeys, gKeys, List.map_map]
  exact List.map_congr_left (fun p _ => h p)

/-- An upsert keeps the `_id` column unchanged when the key matched. -/
theorem gKeys_map_replace (col : GamesCol) (k : PKey) (d : GDoc) :
    gKeys (col.map (fun p => if p.1 = k then (p.1, setMerge p.2 d) else p)) = gKeys col :=
  gKeys_map_fst col _ (fun p => by by_cases hp : p.1 = k <;> simp [hp])

/-- Upserts preserve `_id` uniqueness. -/
theorem gKeys_nodup_upsert (col : GamesCol) (k : PKey) (d : GDoc)
    (h : (gKeys col).Nodup) : (gKeys (upsertSet col k d)).Nodup := by
  rw [upsertSet]
  split
  · rw [gKeys_map_replace]
    exact h
  · case isFalse hany =>
    rw [gKeys, List.map_append]
    have hk : k ∉ gKeys col := by
      intro hc
      rcases List.mem_map.mp hc with ⟨p, hp, hpk⟩
      exact hany (List.any_eq_true.mpr ⟨p, hp, by simp [hpk]⟩)
    simp only [List.map_cons, List.map_nil]
    rw [List.nodup_append]
    refine ⟨h, List.nodup_singleton k, ?_⟩
    intro a ha hak
    rw [List.mem_singleton] at hak
    exact hk (hak ▸ ha)

/-- Lookup at the upserted key after the replacing map. -/
theorem gLookup_map_merge (col : GamesCol) (k : PKey) (d : GDoc) :
    gLookup (col.map (fun p => if p.1 = k then (p.1, setMerge p.2 d) else p)) k
      = (gLookup col k).map (fun v => setMerge v d) := by
  induction col with
  | nil => rfl
  | cons p ps ih =>
    by_cases hp : p.1 = k
    · simp only [List.map_cons, if_pos hp, gLookup, List.find?_cons, decide_eq_true hp]
      rfl
    · simp only [List.map_cons, if_neg hp, gLookup, List.find?_cons, decide_eq_false hp]
      exact ih

/-- A key the collection holds has a document. -/
theorem gAny_lookup (col : GamesCol) (k : PKey) (h : gAny col k = true) :
    ∃ v, gLookup col k = some v := by
  induction col with
  | nil => simp [gAny] at h
  | cons p ps ih =>
    by_cases hp : p.1 = k
    · exact ⟨p.2, by simp only [gLookup, List.find?_cons, decide_eq_true hp]; rfl⟩
    · have h2 : gAny ps k = true := by
        rw [gAny, List.any_eq_true]
        rcases List.any_eq_true.mp h with ⟨q, hq, hqk⟩
        rcases List.mem_cons.mp hq with rfl | hq
        · simp only [decide_eq_true_eq] at hqk
          exact absurd hqk hp
        · exact ⟨q, hq, hqk⟩
      rcases ih h2 with ⟨v, hv⟩
      refine ⟨v, ?_⟩
      simp only [gLookup, List.find?_cons, decide_eq_false hp]
      rw [gLookup] at hv
      exact hv

/-- A key the collection lacks has no document. -/
theorem gAny_false_lookup (col : GamesCol) (k : PKey) (h : ¬gAny col k = true) :
    col.find? (fun p => decide (p.1 = k)) = none := by
  rw [List.find?_eq_none]
  intro x hx
  simp only [decide_eq_true_eq]
  intro hc
  exact h (List.any_eq_true.mpr ⟨x, hx, by simp [hc]⟩)

/-- Lookup at the upserted key: the stored document merges the prior one. -/
theorem gLookup_upsert_self (col : GamesCol) (k : PKey) (d : GDoc) :
    gLookup (upsertSet col k d) k = some (setMergeO (gLookup col k) d) := by
  rw [upsertSet]
  split
  · case isTrue h =>
    rw [gLookup_map_merge]
    rcases gAny_lookup col k h with ⟨v, hv⟩
    rw [hv]
    rfl
  · case isFalse h =>
    have hf := gAny_false_lookup col k h
    have hgl : gLookup col k = none := by rw [gLookup, hf]; rfl
    rw [gLookup, find?_append_eq, hf, hgl]
    simp only [List.find?_cons, decide_eq_true (rfl : k = k)]
    rfl

/-- Lookup away from the upserted key is unchanged (map branch). -/
theorem gFind?_map_other (col : GamesCol) (kup k : PKey) (d : GDoc) (hne : k ≠ kup) :
    (col.map (fun p => if p.1 = kup then (p.1, setMerge p.2 d) else p)).find?
        (fun p => decide (p.1 = k))
      = col.find? (fun p => decide (p.1 = k)) := by
  induction col with
  | nil => rfl
  | cons p ps ih =>
    by_cases hp : p.1 = kup
    · have h1 : decide (p.1 = k) = false := decide_eq_false (fun hc => hne (hc ▸ hp))
      simp only [List.map_cons, if_pos hp, List.find?_cons, h1]
      exact ih
    · simp only [List.map_cons, if_neg hp, List.find?_cons]
      cases hpk : decide (p.1 = k) with
      | true => rfl
      | false => exact ih

/-- Lookup away from the upserted key is unchanged. -/
theorem gLookup_upsert_other (col : GamesCol) (kup k : PKey) (d : GDoc) (hne : k ≠ kup) :
    gLookup (upsertSet col kup d) k = gLookup col k := by
  rw [upsertSet]
  split
  · rw [gLookup, gFind?_map_other col kup k d hne]
    rfl
  · rw [gLookup, find?_append_eq]
    cases hf : col.find? (fun p => decide (p.1 = k)) with
    | some x => rw [gLookup, hf]
    | none =>
      have hd : decide (kup = k) = false := decide_eq_false (fun hc => hne hc.symm)
      simp only [List.find?_cons, hd]
      rw [gLookup, hf]
      rfl

/-- A sequence of upserts not mentioning `k` leaves `k`'s document alone. -/
theorem gLookup_ingest_untouched (ops : List (PKey × GDoc)) (col : GamesCol) (k : PKey)
    (h : k ∉ ops.map (fun o => o.1)) :
    gLookup (ingestOps col ops) k = gLookup col k := by
  induction ops generalizing col with
  | nil => rfl
  | cons op rest ih =>
    rw [List.map_cons] at h
    have hne : k ≠ op.1 := fun hc => h (List.mem_cons.mpr (Or.inl hc))
    have hrest : k ∉ rest.map (fun o => o.1) := fun hc => h (List.mem_cons.mpr (Or.inr hc))
    have hstep : ingestOps col (op :: rest) = ingestOps (upsertSet col op.1 op.2) rest := rfl
    rw [hstep, ih _ hrest, gLookup_upsert_other _ _ _ _ hne]

/-- Ingestion preserves `_id` uniqueness. -/
theorem gKeys_nodup_ingest (ops : List (PKey × GDoc)) (col : GamesCol)
    (h : (gKeys col).Nodup) : (gKeys (ingestOps col ops)).Nodup := by
  induction ops generalizing col with
  | nil => exact h
  | cons op rest ih =>
    have hstep : ingestOps col (op :: rest) = ingestOps (upsertSet col op.1 op.2) rest := rfl
    rw [hstep]
    exact ih _ (gKeys_nodup_upsert col op.1 op.2 h)

/-- Replacing with an already-stable document is the identity map. -/
theorem map_merge_stable (ps : GamesCol) (k : PKey) (d : GDoc) (v : PKey × GDoc)
    (hf : ps.find? (fun p => decide (p.1 = k)) = some v) (hv : setMerge v.2 d = v.2)
    (hnd : (gKeys ps).Nodup) :
    ps.map (fun p => if p.1 = k then (p.1, setMerge p.2 d) else p) = ps := by
  induction ps with
  | nil => simp at hf
  | cons p ps ih =>
    rw [gKeys, List.map_cons] at hnd
    have hpair := List.nodup_cons.mp hnd
    by_cases hp : p.1 = k
    · rw [List.find?_cons] at hf
      simp only [decide_eq_true hp, Option.some.injEq] at hf
      have htail : ps.map (fun p => if p.1 = k then (p.1, setMerge p.2 d) else p) = ps := by
        have hcongr : ∀ q ∈ ps, (if q.1 = k then (q.1, setMerge q.2 d) else q) = id q := by
          intro q hq
          rw [if_neg]
          · rfl
          · intro hqk
            rw [← hp] at hqk
            exact hpair.1 (by rw [← hqk]; exact List.mem_map_of_mem _ hq)
        rw [List.map_congr_left hcongr, List.map_id]
      have hvp : setMerge p.2 d = p.2 := by rw [hf]; exact hv
      rw [List.map_cons, if_pos hp, htail, hvp]
    · rw [List.find?_cons] at hf
      simp only [decide_eq_false hp] at hf
      rw [List.map_cons, if_neg hp, ih hf hpair.2]

/-- Upserting a document the collection already stores stably is a no-op. -/
theorem upsert_stable (col : GamesCol) (k : PKey) (d w : GDoc)
    (hl : gLookup col k = some w) (hw : setMerge w d = w)
    (hnd : (gKeys col).Nodup) : upsertSet col k d = col := by
  rw [gLookup] at hl
  cases hf : col.find? (fun p => decide (p.1 = k)) with
  | none => rw [hf] at hl; cases hl
  | some x =>
    rw [hf] at hl
    simp only [Option.map_some', Option.some.injEq] at hl
    have hany : gAny col k = true := by
      by_contra hc
      rw [gAny_false_lookup col k hc] at hf
      cases hf
    rw [upsertSet, if_pos hany]
    exact map_merge_stable col k d x hf (by rw [hl]; exact hw) hnd

/-- Re-applying a key-distinct sequence of `$set` upserts is the identity:
the idempotence core of catalog ingestion. -/
theorem ingestOps_idem (ops : List (PKey × GDoc)) (col : GamesCol)
    (h1 : (ops.map (fun o => o.1)).Nodup) (h2 : (gKeys col).Nodup) :
    ingestOps (ingestOps col ops) ops = ingestOps col ops := by
  induction ops generalizing col with
  | nil => rfl
  | cons op rest ih =>
    rw [List.map_cons] at h1
    have hpair := List.nodup_cons.mp h1
    have hcons : ∀ c : GamesCol, ingestOps c (op :: rest) = ingestOps (upsertSet c op.1 op.2) rest :=
      fun c => rfl
    simp only [hcons]
    have hCk : gLookup (ingestOps (upsertSet col op.1 op.2) rest) op.1
        = some (setMergeO (gLookup col op.1) op.2) := by
      rw [gLookup_ingest_untouched rest _ op.1 hpair.1, gLookup_upsert_self]
    have hCnd : (gKeys (ingestOps (upsertSet col op.1 op.2) rest)).Nodup :=
      gKeys_nodup_ingest rest _ (gKeys_nodup_upsert col op.1 op.2 h2)
    rw [upsert_stable _ op.1 op.2 _ hCk (setMerge_stable _ _) hCnd]
    exact ih _ hpair.2 (gKeys_nodup_upsert col op.1 op.2 h2)

/-- claim C6: catalog ingestion is idempotent — with every item written as
a `$set` upsert on its stable `_id`, running the ingestion twice on
identical input yields the same collection (hence the same document count
and contents) as running it once.  Identity keys are pairwise distinct
(JSON object keys), as is the `_id` column of the starting collection. -/
theorem claim_C6 (col : GamesCol) (input : List (String × GDoc))
    (h1 : (input.map (fun e => gameKey e.1)).Nodup)
    (h2 : (gKeys col).Nodup) :
    importGamesCol (importGamesCol col input) input = importGamesCol col input ∧
    (importGamesCol (importGamesCol col input) input).length
      = (importGamesCol col input).length := by
  have hkeys : ((input.map (fun e => buildGameOp e.1 e.2)).map (fun o => o.1))
      = input.map (fun e => gameKey e.1) := by
    rw [List.map_map]
    rfl
  have hmain : ingestOps (ingestOps col (input.map (fun e => buildGameOp e.1 e.2)))
        (input.map (fun e => buildGameOp e.1 e.2))
      = ingestOps col (input.map (fun e => buildGameOp e.1 e.2)) :=
    ingestOps_idem _ col (by rw [hkeys]; exact h1) h2
  exact ⟨hmain, by rw [importGamesCol, importGamesCol, hmain]⟩

/-- Witness for claim C6 at a concrete two-item input. -/
theorem claim_C6_witness :
    importGamesCol (importGamesCol [] gInput0) gInput0 = importGamesCol [] gInput0 ∧
    (importGamesCol (importGamesCol [] gInput0) gInput0).length
      = (importGamesCol [] gInput0).length :=
  claim_C6 [] gInput0 (by decide) (by decide)

/-- `import_reviews` never touches the games collection. -/
theorem importReviews_games (ok : RDoc → Bool) (db : DB) (src : Option (List ZEntry)) :
    (importReviews ok db src).db.games = db.games := by
  cases src <;> rfl

/-- `import_reviews` never touches the users collection. -/
theorem importReviews_users (ok : RDoc → Bool) (db : DB) (src : Option (List ZEntry)) :
    (importReviews ok db src).db.users = db.users := by
  cases src <;> rfl

/-- Because the collection is dropped first, the review collection the pass
produces does not depend on the database it started from. -/
theorem importReviews_reviews_indep (ok : RDoc → Bool) (db db2 : DB)
    (src : Option (List ZEntry)) :
    (importReviews ok db src).db.reviews = (importReviews ok db2 src).db.reviews := by
  cases src <;> rfl

/-- `import_games_from_s3` never touches the reviews collection. -/
theorem importGamesS3_reviews (db : DB) (gin : List (String × GDoc)) :
    (importGamesS3 db gin).reviews = db.reviews := by
  rw [importGamesS3]
  split <;> rfl

/-- `import_games_from_s3` never touches the users collection. -/
theorem importGamesS3_users (db : DB) (gin : List (String × GDoc)) :
    (importGamesS3 db gin).users = db.users := by
  rw [importGamesS3]
  split <;> rfl

/-- claim C4: the orchestrator skips catalog ingestion when the games
collection already holds documents (it checks namespace existence, which a
populated collection satisfies) and skips the derived-user build when the
users collection already holds documents; the review collection is dropped
and re-ingested on every run, its final contents independent of whatever it
held before. -/
theorem claim_C4 (gin : List (String × GDoc)) (src : Option (List ZEntry))
    (ok : RDoc → Bool) (db : DB) :
    (∀ g : GamesCol, db.games = some g → (mainRun gin src ok db).games = some g) ∧
    (∀ ul : UsersCol, db.users = some ul → (mainRun gin src ok db).users = some ul) ∧
    (mainRun gin src ok db).reviews = (importReviews ok dbEmpty src).db.reviews := by
  have hdb1g : (if (db.games).isSome then db else importGamesS3 db gin).users = db.users := by
    split
    · rfl
    · exact importGamesS3_users db gin
  refine ⟨?_, ?_, ?_⟩
  · intro g hg
    rw [mainRun]
    have h1 : (db.games).isSome = true := by rw [hg]; rfl
    rw [if_pos h1]
    have h2 : (importReviews ok db src).db.games = some g := by
      rw [importReviews_games, hg]
    split
    · exact h2
    · rw [buildUsersDb]

      exact h2
  · intro ul hu
    rw [mainRun]
    have h2 : (importReviews ok (if (db.games).isSome then db else importGamesS3 db gin) src).db.users
        = some ul := by
      rw [importReviews_users, hdb1g, hu]
    rw [if_pos (by rw [h2]; rfl)]
    exact h2
  · rw [mainRun]
    generalize (if (db.games).isSome then db else importGamesS3 db gin) = db1
    have h2 : (importReviews ok db1 src).db.reviews
        = (importReviews ok dbEmpty src).db.reviews :=
      importReviews_reviews_indep ok db1 dbEmpty src
    split
    · exact h2
    · rw [buildUsersDb]
      exact h2

/-- Witness for claim C4 on a database where all collections exist. -/
theorem claim_C4_witness :
    (mainRun gInput0 (some [entryC3]) okAll dbFull).games = some gamesCol0 ∧
    (mainRun gInput0 (some [entryC3]) okAll dbFull).users = some usersCol0 ∧
    (mainRun gInput0 (some [entryC3]) okAll dbFull).reviews
      = (importReviews okAll dbEmpty (some [entryC3])).db.reviews :=
  ⟨(claim_C4 gInput0 (some [entryC3]) okAll dbFull).1 gamesCol0 rfl,
   (claim_C4 gInput0 (some [entryC3]) okAll dbFull).2.1 usersCol0 rfl,
   (claim_C4 gInput0 (some [entryC3]) okAll dbFull).2.2⟩

/-- claim C10: `import_reviews` drops the review collection before opening
the remote source, so a failure at open leaves it empty; a failure while
streaming leaves exactly the already-flushed batches (no rollback) and
processes nothing further; in every case the function returns normally
(the exception ends in its handler), and the orchestrator proceeds to the
users step, building the derived collection from whatever remains whenever
the users collection is absent. -/
theorem claim_C10 :
    (∀ (ok : RDoc → Bool) (db : DB),
      (importReviews ok db none).db.reviews = none ∧
      (importReviews ok db none).aborted = true) ∧
    (∀ (ok : RDoc → Bool) (appid : Int) (f : String) (rest : List SrcEvent) (st : FlushSt),
      st.aborted = false →
      runEvents ok appid f (SrcEvent.fail :: rest) st = { st with aborted := true }) ∧
    (∀ (gin : List (String × GDoc)) (src : Option (List ZEntry)) (ok : RDoc → Bool) (db : DB),
      db.users = none →
      (mainRun gin src ok db).users
        = some (buildUsersFrom
            ((((importReviews ok db src).db.reviews).getD []).map RDoc.toA) [])) := by
  refine ⟨fun ok db => ⟨rfl, rfl⟩, ?_, ?_⟩
  · intro ok appid f rest st h
    rw [runEvents, if_neg (by simp [h])]
    exact runEvents_aborted ok appid f rest _ rfl
  · intro gin src ok db hu
    rw [mainRun]
    have hdb1u : (if (db.games).isSome then db else importGamesS3 db gin).users = db.users := by
      split
      · rfl
      · exact importGamesS3_users db gin
    have h2 : (importReviews ok (if (db.games).isSome then db else importGamesS3 db gin) src).db.users
        = none := by
      rw [importReviews_users, hdb1u, hu]
    rw [if_neg (by rw [h2]; simp)]
    rw [buildUsersDb, h2]
    have h3 : (importReviews ok (if (db.games).isSome then db else importGamesS3 db gin) src).db.reviews
        = (importReviews ok db src).db.reviews :=
      importReviews_reviews_indep ok _ db src
    rw [h3]
    rfl

/-- Witness for claim C10 at concrete inputs. -/
theorem claim_C10_witness :
    ((importReviews okAll dbFull none).db.reviews = none ∧
      (importReviews okAll dbFull none).aborted = true) ∧
    runEvents okAll 7 "x.csv" [SrcEvent.fail, SrcEvent.row rowUser1] ⟨some [], [], 0, false⟩
      = ⟨some [], [], 0, true⟩ ∧
    (mainRun gInput0 (some [entryC3]) okAll dbEmpty).users
      = some (buildUsersFrom
          ((((importReviews okAll dbEmpty (some [entryC3])).db.reviews).getD []).map RDoc.toA) []) :=
  ⟨claim_C10.1 okAll dbFull,
   claim_C10.2.1 okAll 7 "x.csv" [SrcEvent.row rowUser1] ⟨some [], [], 0, false⟩ rfl,
   claim_C10.2.2 gInput0 (some [entryC3]) okAll dbEmpty rfl⟩

end SteamImport
